import Mathlib

/-!
Verification model of the `rwth-lkp-submit` tool (`src/main.rs`).

Strings are modelled as `List Char` (`Str`), matching Rust `&str`/`String`
at the Unicode-scalar level.  External process and filesystem effects are
modelled by passing their observable data explicitly:
the stdout of the range-count query, the directory enumeration produced by
`read_dir`, and the bytes of files.  Process exits (`exit(0)`, `exit(1)`)
and panics (`unwrap` on `None`) are modelled as distinguished result
constructors of the corresponding functions.
-/

abbrev Str := List Char

/-- Model of Rust `str::split_once("]")`: split at the first occurrence of
`]`, returning the part before it and the part after it (the `]` itself is
dropped), or `none` when the string holds no `]`. -/
def split_once_rb : Str → Option (Str × Str)
  | [] => none
  | c :: cs =>
    if c = ']' then some ([], cs)
    else (split_once_rb cs).map (fun p => (c :: p.1, p.2))

/-- Splitting a list at every occurrence of the character `c`, in the manner
of Rust `str::split(c)` (and Lean `String.splitOn`): the result is always
non-empty, and the separators are dropped. -/
def splitChar (c : Char) : Str → List Str
  | [] => [[]]
  | x :: xs =>
    if x = c then [] :: splitChar c xs
    else
      match splitChar c xs with
      | [] => [[x]]
      | y :: ys => (x :: y) :: ys

/-- Strip one trailing carriage return, as Rust `lines` does after
stripping the terminating newline of a line. -/
def stripCR (s : Str) : Str :=
  if s.getLast? = some '\r' then s.dropLast else s

/-- Model of Rust `str::lines()`: lines are separated by `\n`, a trailing
`\r` just before a `\n` is stripped, the final line terminator is optional,
and an empty final segment produces no line. -/
def rustLines (s : Str) : List Str :=
  let parts := splitChar '\n' s
  parts.dropLast.map stripCR ++
    (match parts.getLast? with
     | some [] => []
     | some l => [l]
     | none => [])

/-- Model of writing each line with `writeln!`: every line is emitted
followed by a single `\n`. -/
def unlines : List Str → Str
  | [] => []
  | l :: ls => l ++ '\n' :: unlines ls

/-- The decimal digit character for `d` (`d < 10`). -/
def digitChar (d : Nat) : Char := Char.ofNat (d + 48)

/-- Fuel-driven accumulator loop rendering `n` in decimal (most significant
digit first, prepended to `acc`).  `fuel ≥ n` makes it total. -/
def natToStrAux : Nat → Nat → Str → Str
  | 0, _, acc => acc
  | fuel + 1, n, acc =>
    if n = 0 then acc
    else natToStrAux fuel (n / 10) (digitChar (n % 10) :: acc)

/-- Decimal rendering of a natural number, as Rust `u32`/`usize` `Display`
renders integers. -/
def natToStr (n : Nat) : Str :=
  if n = 0 then ['0'] else natToStrAux n n []

/-- Numeric value of a decimal digit character. -/
def charVal (c : Char) : Nat := c.toNat - 48

/-- Parse a non-empty all-digit string as a natural number (no sign, no
bound); building block of the integer parsers. -/
def parseNatDigits (s : Str) : Option Nat :=
  if s ≠ [] ∧ s.all Char.isDigit then
    some (s.foldl (fun a c => a * 10 + charVal c) 0)
  else none

/-- Model of Rust `str::trim`: drop whitespace from both ends. -/
def rustTrim (s : Str) : Str :=
  ((s.dropWhile Char.isWhitespace).reverse.dropWhile Char.isWhitespace).reverse

/-- Model of Rust `str::parse::<usize>()`: an optional leading `+`, then
decimal digits, rejecting values that overflow 64 bits. -/
def parseUsize (s : Str) : Option Nat :=
  let t := match s with | '+' :: rest => rest | _ => s
  match parseNatDigits t with
  | none => none
  | some v => if v < 2 ^ 64 then some v else none

/-! ## Configuration data model (`struct LabTask`, `MailConfig`, `GitConfig`,
`Config` of `src/main.rs`).  Rust `u32` fields are modelled as `Nat`; the
parser of the persisted format enforces the 32-bit bound, so every loadable
value satisfies it. -/

structure LabTask where
  lab : Nat
  task : Nat
deriving DecidableEq, Repr

structure MailConfig where
  «to» : Str
  suppress_cc : Bool
deriving DecidableEq, Repr

structure GitConfig where
  root_commit : Str
deriving DecidableEq, Repr

structure Config where
  test : LabTask
  mail : MailConfig
  git : GitConfig
deriving DecidableEq, Repr

/-- Default task identity (`impl Default for LabTask`): lab 3, task 2. -/
def LabTask.default : LabTask := ⟨3, 2⟩

/-- Default mail target (`impl Default for MailConfig`). -/
def MailConfig.default : MailConfig :=
  ⟨("lkp-maintainers@os.rwth-aachen.de".data), true⟩

/-- Default baseline reference (`impl Default for GitConfig`). -/
def GitConfig.default : GitConfig := ⟨("v6.5.7".data)⟩

/-- Default configuration (`#[derive(Default)] struct Config`). -/
def Config.default : Config := ⟨LabTask.default, MailConfig.default, GitConfig.default⟩

/-- Rendered task tag (`impl Display for LabTask`):
`write!(f, "lab\x7b\x7d: task\x7b\x7d:", self.lab, self.task)`. -/
def labTaskDisplay (lt : LabTask) : Str :=
  ("lab".data) ++ natToStr lt.lab ++ (": task".data) ++ natToStr lt.task ++ (":".data)

/-! ## Subject Annotator (`patch_first_mail` of `src/main.rs`). -/

/-- The literal subject marker the annotator looks for. -/
def subjectMarker : Str := "Subject: [PATCH ".data

/-- One loop iteration of `patch_first_mail` over the lines of the first
patch file: a line starting with `Subject: [PATCH ` is split at its first
`]` (`split_once("]").unwrap()`, `none` modelling the panic when no `]`
exists) and rewritten as
`\x7bline_part1\x7d] \x7blab_task\x7d \x7bline_part2\x7d`;
any other line is written back unchanged. -/
def patch_line (lt : LabTask) (line : Str) : Option Str :=
  if subjectMarker.isPrefixOf line then
    match split_once_rb line with
    | none => none
    | some (p1, p2) => some (p1 ++ ']' :: ' ' :: labTaskDisplay lt ++ ' ' :: p2)
  else some line

/-- Apply `f` to every element, failing when any application fails (the
line loop of `patch_first_mail`, whose `unwrap` aborts the whole run). -/
def mapOpt (f : α → Option β) : List α → Option (List β)
  | [] => some []
  | x :: xs =>
    match f x, mapOpt f xs with
    | some y, some ys => some (y :: ys)
    | _, _ => none

/-- The full rewritten content of the first patch file: each line of the
old content processed by `patch_line` and written back with `writeln!`. -/
def patch_content (lt : LabTask) (content : Str) : Option Str :=
  (mapOpt (patch_line lt) (rustLines content)).map unlines

/-- The first-patch naming convention used by `find`:
`file.starts_with("0001-") && file.ends_with(".patch")`. -/
def isFirstPatchName (n : Str) : Bool :=
  ("0001-".data).isPrefixOf n && (".patch".data).isSuffixOf n

/-- Index of the first element satisfying `p`, modelling `iter().find`
(the found element is the one later overwritten in place). -/
def findFirstIdx (p : α → Bool) : List α → Option Nat
  | [] => none
  | x :: xs => if p x then some 0 else (findFirstIdx p xs).map (· + 1)

/-- A patch file as the annotator sees it: its file name and the bytes of
its content. -/
structure PatchFile where
  name : Str
  content : Str
deriving DecidableEq, Repr

/-- Outcome of `patch_first_mail`: the `bail!` error carrying the available
file names, the `unwrap` panic on a subject line without `]`, or success
with the resulting file set. -/
inductive AnnotateResult where
  | firstPatchNotFound (available : List Str)
  | panicNoBracket
  | ok (files : List PatchFile)
deriving DecidableEq, Repr

/-- Model of `patch_first_mail`: locate the first file named
`0001-*.patch`, rewrite its content line by line, and write it back in
place; every other file of the set is untouched. -/
def patch_first_mail (patch_files : List PatchFile) (lab_task : LabTask) : AnnotateResult :=
  match findFirstIdx (fun f => isFirstPatchName f.name) patch_files with
  | none => AnnotateResult.firstPatchNotFound (patch_files.map (fun f => f.name))
  | some i =>
    match patch_files[i]? with
    | none => AnnotateResult.firstPatchNotFound (patch_files.map (fun f => f.name))
    | some first =>
      match patch_content lab_task first.content with
      | none => AnnotateResult.panicNoBracket
      | some newContent =>
        AnnotateResult.ok (patch_files.set i ⟨first.name, newContent⟩)

/-! ## Patch Set Generator (`create_patchs` of `src/main.rs`).
The stdout of `git rev-list --count` and the `read_dir` enumeration of the
scratch directory after `git format-patch` are explicit inputs. -/

/-- Outcome of `create_patchs`: the count parse failure, the successful
`exit(0)` taken when the count is zero, or the enumerated patch files. -/
inductive CreateResult where
  | countError
  | nothingToSubmit
  | ok (files : List PatchFile)
deriving DecidableEq, Repr

/-- Model of `create_patchs`: parse the trimmed count output; on zero print
`nothing to submit` and `exit(0)`; otherwise run `git format-patch -count`
and return every entry `read_dir` yields, in enumeration order. -/
def create_patchs (countOutput : Str) (dirEntries : List PatchFile) : CreateResult :=
  match parseUsize (rustTrim countOutput) with
  | none => CreateResult.countError
  | some 0 => CreateResult.nothingToSubmit
  | some (_ + 1) => CreateResult.ok dirEntries

/-! ## Orchestrator (`main` of `src/main.rs`), after configuration load. -/

/-- Outcome of the pipeline after configuration load: every constructor
other than `sent` means `git send-email` is never invoked; `sent` carries
the annotated file set handed to the Dispatcher. -/
inductive RunResult where
  | countError
  | nothingToSubmit
  | annotateError (e : AnnotateResult)
  | sent (files : List PatchFile)
deriving DecidableEq, Repr

/-- Model of `main` after `load_config`: generate the patch set, annotate
the first patch, then dispatch; any earlier exit or failure skips the
dispatch. -/
def run_pipeline (lt : LabTask) (countOutput : Str) (dirEntries : List PatchFile) : RunResult :=
  match create_patchs countOutput dirEntries with
  | CreateResult.countError => RunResult.countError
  | CreateResult.nothingToSubmit => RunResult.nothingToSubmit
  | CreateResult.ok files =>
    match patch_first_mail files lt with
    | AnnotateResult.ok annotated => RunResult.sent annotated
    | e => RunResult.annotateError e

/-! ## Persisted configuration format.
Modelled from the spec: the serializer (`basic_toml::to_string`) and parser
(`basic_toml::from_str`) live in an external crate, not in this repository;
the spec describes the persisted form as a structured text file with three
groups — task identity (two integers), mail target (string, boolean),
baseline reference (string).  The model renders exactly that layout, with
the usual escaping of special characters inside quoted strings. -/

/-- Modelled from the spec: escaping of one character inside a quoted
string of the persisted text format. -/
def escChar (c : Char) : Str :=
  if c = '"' then ['\\', '"']
  else if c = '\\' then ['\\', '\\']
  else if c = '\n' then ['\\', 'n']
  else if c = '\t' then ['\\', 't']
  else if c = '\r' then ['\\', 'r']
  else [c]

/-- Modelled from the spec: escaping of a whole string value. -/
def escapeStr (s : Str) : Str := (s.map escChar).flatten

/-- Modelled from the spec: inverse of `escapeStr`; fails on a dangling
backslash, an unknown escape, or a bare quote. -/
def unescapeStr : Str → Option Str
  | [] => some []
  | c :: rest =>
    if c = '\\' then
      match rest with
      | [] => none
      | d :: rest2 =>
        (if d = '"' then some '"'
         else if d = '\\' then some '\\'
         else if d = 'n' then some '\n'
         else if d = 't' then some '\t'
         else if d = 'r' then some '\r'
         else none).bind fun e => (unescapeStr rest2).map (e :: ·)
    else if c = '"' then none
    else (unescapeStr rest).map (c :: ·)

/-- Rendering of a boolean of the persisted format. -/
def boolStr (b : Bool) : Str := if b then "true".data else "false".data

/-- Modelled from the spec: serialization of a `Config` into the persisted
text format (the bytes `write_config` puts on disk). -/
def toml_serialize (c : Config) : Str :=
  unlines [
    ("[test]".data),
    ("lab = ".data) ++ natToStr c.test.lab,
    ("task = ".data) ++ natToStr c.test.task,
    [],
    ("[mail]".data),
    ("to = \"".data) ++ (escapeStr c.mail.«to» ++ ['"']),
    ("suppress_cc = ".data) ++ boolStr c.mail.suppress_cc,
    [],
    ("[git]".data),
    ("root_commit = \"".data) ++ (escapeStr c.git.root_commit ++ ['"'])]

/-- Consume an expected literal from the front of a string. -/
def dropLiteral : Str → Str → Option Str
  | [], s => some s
  | _ :: _, [] => none
  | p :: ps, c :: cs => if c = p then dropLiteral ps cs else none

/-- Parse an integer field value, enforcing the 32-bit bound of the Rust
`u32` fields. -/
def parseNatField (s : Str) : Option Nat :=
  match parseNatDigits s with
  | some v => if v < 2 ^ 32 then some v else none
  | none => none

/-- Parse a boolean field value. -/
def parseBoolField (s : Str) : Option Bool :=
  if s = "true".data then some true
  else if s = "false".data then some false
  else none

/-- Parse the remainder of a quoted-string field: everything up to the
closing quote, unescaped. -/
def parseStrField (s : Str) : Option Str :=
  if s.getLast? = some '"' then unescapeStr s.dropLast else none

/-- Modelled from the spec: parser of one split-up persisted file, the
line-structure half of `toml_parse`. -/
def toml_parse_lines : List Str → Option Config
  | [l1, l2, l3, l4, l5, l6, l7, l8, l9, l10, l11] =>
    if l1 = ("[test]".data) ∧ l4 = [] ∧ l5 = ("[mail]".data) ∧ l8 = [] ∧
        l9 = ("[git]".data) ∧ l11 = [] then
      match dropLiteral ("lab = ".data) l2, dropLiteral ("task = ".data) l3,
          dropLiteral ("to = \"".data) l6, dropLiteral ("suppress_cc = ".data) l7,
          dropLiteral ("root_commit = \"".data) l10 with
      | some labS, some taskS, some toS, some ccS, some rcS =>
        match parseNatField labS, parseNatField taskS, parseStrField toS,
            parseBoolField ccS, parseStrField rcS with
        | some lab, some task, some toAddr, some cc, some rc =>
          some ⟨⟨lab, task⟩, ⟨toAddr, cc⟩, ⟨rc⟩⟩
        | _, _, _, _, _ => none
      | _, _, _, _, _ => none
    else none
  | _ => none

/-- Modelled from the spec: parser of the persisted text format, the
inverse direction of `toml_serialize`. -/
def toml_parse (s : Str) : Option Config :=
  toml_parse_lines (splitChar '\n' s)

/-- The bytes `write_config` writes for a configuration value. -/
def write_config (c : Config) : Str := toml_serialize c

/-- Outcome of `load_config`: the first-run bootstrap (defaults written,
`exit(1)`), a parse failure (`?` propagation), or a loaded configuration. -/
inductive LoadResult where
  | firstRun
  | parseError
  | ok (c : Config)
deriving DecidableEq, Repr

/-- Model of `load_config` over the on-disk state of the configuration file
(`none` = the file does not exist).  Returns the outcome together with the
file state afterwards: on first run the defaults are written; on a parse
failure the function returns early and the file is untouched; on success
the loaded configuration is re-persisted. -/
def load_config (file : Option Str) : LoadResult × Option Str :=
  match file with
  | none => (LoadResult.firstRun, some (write_config Config.default))
  | some content =>
    match toml_parse content with
    | none => (LoadResult.parseError, some content)
    | some c => (LoadResult.ok c, some (write_config c))

/-- Example fixture: a two-file patch set before annotation. -/
def filesBefore : List PatchFile :=
  [⟨("0001-a.patch".data), ("Subject: [PATCH 1/2] Hi\nBody\n".data)⟩,
   ⟨("0002-b.patch".data), ("Subject: [PATCH 2/2] Yo\n".data)⟩]

/-- Example fixture: the same patch set after annotation with lab 3 /
task 2. -/
def filesAfter : List PatchFile :=
  [⟨("0001-a.patch".data), ("Subject: [PATCH 1/2] lab3: task2:  Hi\nBody\n".data)⟩,
   ⟨("0002-b.patch".data), ("Subject: [PATCH 2/2] Yo\n".data)⟩]

/-! ## Helper lemmas about the line-splitting primitives. -/

theorem split_once_rb_of_append (p1 p2 : Str) (h : ']' ∉ p1) :
    split_once_rb (p1 ++ ']' :: p2) = some (p1, p2) := by
  induction p1 with
  | nil => simp [split_once_rb]
  | cons c cs ih =>
    have hc : c ≠ ']' := fun hc => h (hc ▸ List.mem_cons_self c cs)
    have hcs : ']' ∉ cs := fun hm => h (List.mem_cons_of_mem c hm)
    simp [split_once_rb, hc, ih hcs]

theorem split_once_rb_eq_some (l p1 p2 : Str) (h : split_once_rb l = some (p1, p2)) :
    l = p1 ++ ']' :: p2 ∧ ']' ∉ p1 := by
  induction l generalizing p1 p2 with
  | nil => simp [split_once_rb] at h
  | cons c cs ih =>
    rw [split_once_rb] at h
    by_cases hc : c = ']'
    · rw [if_pos hc] at h
      obtain ⟨rfl, rfl⟩ := Prod.mk.injEq .. ▸ Option.some.inj h
      simp [hc]
    · rw [if_neg hc] at h
      rcases hsub : split_once_rb cs with _ | ⟨q1, q2⟩
      · rw [hsub] at h; simp at h
      · rw [hsub] at h
        simp only [Option.map_some'] at h
        obtain ⟨h1, h2⟩ := Prod.mk.injEq .. ▸ Option.some.inj h
        obtain ⟨hl, hnot⟩ := ih q1 q2 hsub
        subst h1; subst h2; subst hl
        refine ⟨rfl, ?_⟩
        intro hm
        rcases List.mem_cons.mp hm with h | h
        · exact hc h.symm
        · exact hnot h

theorem split_once_rb_of_mem (l : Str) (h : ']' ∈ l) :
    ∃ p1 p2, split_once_rb l = some (p1, p2) := by
  induction l with
  | nil => simp at h
  | cons c cs ih =>
    by_cases hc : c = ']'
    · exact ⟨[], cs, by simp [split_once_rb, hc]⟩
    · have hm : ']' ∈ cs := by
        rcases List.mem_cons.mp h with h | h
        · exact absurd h.symm hc
        · exact h
      obtain ⟨p1, p2, hp⟩ := ih hm
      exact ⟨c :: p1, p2, by simp [split_once_rb, hc, hp]⟩

theorem split_once_rb_eq_none (l : Str) (h : ']' ∉ l) : split_once_rb l = none := by
  induction l with
  | nil => rfl
  | cons c cs ih =>
    have hc : c ≠ ']' := fun hc => h (hc ▸ List.mem_cons_self c cs)
    have hcs : ']' ∉ cs := fun hm => h (List.mem_cons_of_mem c hm)
    simp [split_once_rb, hc, ih hcs]

/-! ## Helper lemmas about `mapOpt`. -/

theorem mapOpt_id (f : α → Option α) (l : List α) (h : ∀ x ∈ l, f x = some x) :
    mapOpt f l = some l := by
  induction l with
  | nil => rfl
  | cons x xs ih =>
    rw [mapOpt, h x (List.mem_cons_self x xs), ih fun y hy => h y (List.mem_cons_of_mem x hy)]

theorem mapOpt_eq_none (f : α → Option β) (l : List α) (x : α)
    (hx : x ∈ l) (h : f x = none) : mapOpt f l = none := by
  induction l with
  | nil => simp at hx
  | cons y ys ih =>
    rw [mapOpt]
    rcases List.mem_cons.mp hx with rfl | hm
    · rw [h]
    · rw [ih hm]
      rcases f y with _ | z <;> rfl

theorem mapOpt_eq_some (f : α → Option β) (l : List α) (out : List β)
    (h : mapOpt f l = some out) :
    out.length = l.length ∧
      ∀ (k : Nat) (x : α), l[k]? = some x → ∃ y, out[k]? = some y ∧ f x = some y := by
  induction l generalizing out with
  | nil =>
    rw [mapOpt] at h
    obtain rfl := Option.some.inj h
    exact ⟨rfl, by intro k x hx; simp at hx⟩
  | cons a as ih =>
    rw [mapOpt] at h
    rcases ha : f a with _ | b <;> rw [ha] at h
    · simp at h
    · rcases hm : mapOpt f as with _ | bs <;> rw [hm] at h
      · simp at h
      · obtain rfl := Option.some.inj h
        obtain ⟨hlen, hidx⟩ := ih bs hm
        refine ⟨by simp [hlen], ?_⟩
        intro k x hx
        match k with
        | 0 =>
          simp only [List.getElem?_cons_zero] at hx ⊢
          exact ⟨b, rfl, (Option.some.inj hx) ▸ ha⟩
        | k + 1 =>
          simp only [List.getElem?_cons_succ] at hx ⊢
          exact hidx k x hx

/-! ## Helper lemmas about `findFirstIdx` and `List.set`. -/

theorem findFirstIdx_eq_none (p : α → Bool) (l : List α)
    (h : ∀ x ∈ l, p x = false) : findFirstIdx p l = none := by
  induction l with
  | nil => rfl
  | cons x xs ih =>
    rw [findFirstIdx, h x (List.mem_cons_self x xs)]
    simp only [Bool.false_eq_true, if_false]
    rw [ih fun y hy => h y (List.mem_cons_of_mem x hy)]
    rfl

theorem findFirstIdx_eq_some (p : α → Bool) (l : List α) (i : Nat)
    (h : findFirstIdx p l = some i) : ∃ x, l[i]? = some x ∧ p x = true := by
  induction l generalizing i with
  | nil => simp [findFirstIdx] at h
  | cons x xs ih =>
    rw [findFirstIdx] at h
    by_cases hp : p x
    · rw [if_pos hp] at h
      obtain rfl := Option.some.inj h
      exact ⟨x, by simp, hp⟩
    · rw [if_neg hp] at h
      rcases hf : findFirstIdx p xs with _ | j <;> rw [hf] at h
      · simp at h
      · simp only [Option.map_some'] at h
        obtain rfl := Option.some.inj h
        obtain ⟨y, hy, hpy⟩ := ih j hf
        exact ⟨y, by simpa using hy, hpy⟩

theorem getElem?_set_ne (l : List α) (i j : Nat) (a : α) (h : j ≠ i) :
    (l.set i a)[j]? = l[j]? := by
  induction l generalizing i j with
  | nil => simp
  | cons x xs ih =>
    match i, j with
    | 0, 0 => exact absurd rfl h
    | 0, k + 1 => simp [List.set]
    | m + 1, 0 => simp [List.set]
    | m + 1, k + 1 =>
      simp only [List.set, List.getElem?_cons_succ]
      exact ih m k fun hk => h (by rw [hk])

theorem getElem?_set_self (l : List α) (i : Nat) (a : α) (h : i < l.length) :
    (l.set i a)[i]? = some a := by
  induction l generalizing i with
  | nil => simp at h
  | cons x xs ih =>
    match i with
    | 0 => simp [List.set]
    | k + 1 =>
      simp only [List.set, List.getElem?_cons_succ]
      exact ih k (by simpa using h)

theorem set_of_getElem? (l : List α) (i : Nat) (a : α) (h : l[i]? = some a) :
    l.set i a = l := by
  induction l generalizing i with
  | nil => simp at h
  | cons x xs ih =>
    match i with
    | 0 => simp only [List.getElem?_cons_zero] at h; rw [Option.some.inj h]; rfl
    | k + 1 =>
      simp only [List.getElem?_cons_succ] at h
      simp [List.set, ih k h]

/-! ## Helper lemmas about `splitChar`, `unlines` and `dropLiteral`. -/

theorem splitChar_append_cons (c : Char) (l rest : Str) (h : c ∉ l) :
    splitChar c (l ++ c :: rest) = l :: splitChar c rest := by
  induction l with
  | nil => simp [splitChar]
  | cons x xs ih =>
    have hx : x ≠ c := fun hx => h (hx ▸ List.mem_cons_self x xs)
    have hxs : c ∉ xs := fun hm => h (List.mem_cons_of_mem x hm)
    rw [List.cons_append, splitChar, if_neg hx, ih hxs]

theorem splitChar_unlines (ls : List Str) (h : ∀ l ∈ ls, '\n' ∉ l) :
    splitChar '\n' (unlines ls) = ls ++ [[]] := by
  induction ls with
  | nil => rfl
  | cons l ls ih =>
    rw [unlines, splitChar_append_cons '\n' l (unlines ls) (h l (List.mem_cons_self l ls)),
      ih fun m hm => h m (List.mem_cons_of_mem l hm), List.cons_append]

theorem dropLiteral_append (p r : Str) : dropLiteral p (p ++ r) = some r := by
  induction p with
  | nil => rfl
  | cons c cs ih => simp [dropLiteral, ih]

/-! ## Helper lemmas about the decimal rendering. -/

theorem natToStrAux_eq (fuel n : Nat) (acc : Str) (h : n ≤ fuel) :
    natToStrAux fuel n acc = ((Nat.digits 10 n).map digitChar).reverse ++ acc := by
  induction fuel generalizing n acc with
  | zero =>
    obtain rfl : n = 0 := Nat.le_zero.mp h
    simp [natToStrAux]
  | succ fuel ih =>
    by_cases hn : n = 0
    · subst hn; simp [natToStrAux]
    · rw [natToStrAux, if_neg hn]
      have hdiv : n / 10 < n := Nat.div_lt_self (Nat.pos_of_ne_zero hn) (by norm_num)
      rw [ih (n / 10) _ (by omega)]
      rw [Nat.digits_def' (by norm_num : (1 : ℕ) < 10) (Nat.pos_of_ne_zero hn)]
      simp [List.append_assoc]

theorem natToStr_eq (n : Nat) :
    natToStr n = if n = 0 then ['0'] else ((Nat.digits 10 n).map digitChar).reverse := by
  by_cases hn : n = 0
  · subst hn; rfl
  · rw [natToStr, if_neg hn, if_neg hn, natToStrAux_eq n n [] (Nat.le_refl n), List.append_nil]

theorem digitChar_isDigit (d : Nat) (h : d < 10) : (digitChar d).isDigit = true := by
  interval_cases d <;> decide

theorem charVal_digitChar (d : Nat) (h : d < 10) : charVal (digitChar d) = d := by
  interval_cases d <;> decide

theorem digitChar_ne_newline (d : Nat) (h : d < 10) : digitChar d ≠ '\n' := by
  interval_cases d <;> decide

theorem natToStr_all_isDigit (n : Nat) : (natToStr n).all Char.isDigit = true := by
  rw [natToStr_eq]
  by_cases hn : n = 0
  · subst hn; rfl
  · rw [if_neg hn, List.all_eq_true]
    intro c hc
    rw [List.mem_reverse, List.mem_map] at hc
    obtain ⟨d, hd, rfl⟩ := hc
    exact digitChar_isDigit d (Nat.digits_lt_base (by norm_num) hd)

theorem natToStr_ne_nil (n : Nat) : natToStr n ≠ [] := by
  rw [natToStr_eq]
  by_cases hn : n = 0
  · subst hn; simp
  · rw [if_neg hn]
    simp only [ne_eq, List.reverse_eq_nil_iff, List.map_eq_nil_iff]
    exact Nat.digits_ne_nil_iff_ne_zero.mpr hn

theorem natToStr_no_newline (n : Nat) : '\n' ∉ natToStr n := by
  intro hm
  have hall := List.all_eq_true.mp (natToStr_all_isDigit n) _ hm
  simp at hall

theorem foldr_eq_ofDigits (L : List Nat) :
    L.foldr (fun d a => a * 10 + d) 0 = Nat.ofDigits 10 L := by
  induction L with
  | nil => simp [Nat.ofDigits]
  | cons d ds ih => rw [List.foldr_cons, ih, Nat.ofDigits_cons]; ring

theorem parseNatDigits_natToStr (n : Nat) : parseNatDigits (natToStr n) = some n := by
  rw [parseNatDigits, if_pos ⟨natToStr_ne_nil n, natToStr_all_isDigit n⟩]
  congr 1
  by_cases hn : n = 0
  · subst hn; decide
  · rw [natToStr_eq, if_neg hn]
    rw [← List.map_reverse, List.foldl_map]
    rw [List.foldl_ext (g := fun a d => a * 10 + d)]
    · rw [List.foldl_reverse]
      have : ∀ (acc : Nat), (Nat.digits 10 n).foldr (fun x y => (fun a d => a * 10 + d) y x) acc =
          (Nat.digits 10 n).foldr (fun d a => a * 10 + d) acc := by
        intro acc; rfl
      rw [this, foldr_eq_ofDigits, Nat.ofDigits_digits]
    · intro a d hd
      rw [charVal_digitChar d (Nat.digits_lt_base (by norm_num) (List.mem_reverse.mp hd))]

/-! ## Helper lemmas about the string escaping of the persisted format. -/

theorem escapeStr_nil : escapeStr [] = [] := rfl

theorem escapeStr_cons (c : Char) (s : Str) :
    escapeStr (c :: s) = escChar c ++ escapeStr s := by
  simp [escapeStr]

theorem escapeStr_no_newline (s : Str) : '\n' ∉ escapeStr s := by
  induction s with
  | nil => simp [escapeStr]
  | cons c cs ih =>
    rw [escapeStr_cons]
    intro hm
    rcases List.mem_append.mp hm with h | h
    · rw [escChar] at h
      split_ifs at h with h1 h2 h3 h4 h5
      · exact absurd h (by decide)
      · exact absurd h (by decide)
      · exact absurd h (by decide)
      · exact absurd h (by decide)
      · exact absurd h (by decide)
      · rw [List.mem_singleton] at h
        exact h3 h.symm
    · exact ih h

theorem unescapeStr_cons_plain (c : Char) (rest : Str) (h1 : c ≠ '\\') (h2 : c ≠ '"') :
    unescapeStr (c :: rest) = (unescapeStr rest).map (c :: ·) := by
  rw [unescapeStr.eq_def]
  simp [h1, h2]

theorem unescape_escape (s : Str) : unescapeStr (escapeStr s) = some s := by
  induction s with
  | nil => rfl
  | cons c cs ih =>
    rw [escapeStr_cons, escChar]
    by_cases h1 : c = '"'
    · subst h1; simp [unescapeStr, ih]
    · by_cases h2 : c = '\\'
      · subst h2; simp [unescapeStr, ih]
      · by_cases h3 : c = '\n'
        · subst h3; simp [unescapeStr, ih]
        · by_cases h4 : c = '\t'
          · subst h4; simp [unescapeStr, ih]
          · by_cases h5 : c = '\r'
            · subst h5; simp [unescapeStr, ih]
            · rw [if_neg h1, if_neg h2, if_neg h3, if_neg h4, if_neg h5, List.cons_append,
                List.nil_append, unescapeStr_cons_plain c _ h2 h1, ih]
              rfl

/-! ## Behaviour of a single line rewrite. -/

theorem patch_line_of_some (lt : LabTask) (l l' : Str) (h : patch_line lt l = some l') :
    if subjectMarker.isPrefixOf l then l' ≠ l else l' = l := by
  rw [patch_line] at h
  by_cases hpre : subjectMarker.isPrefixOf l
  · rw [if_pos hpre] at h ⊢
    rcases hs : split_once_rb l with _ | ⟨p1, p2⟩ <;> rw [hs] at h
    · simp at h
    · obtain rfl := (Option.some.inj h).symm
      obtain ⟨rfl, -⟩ := split_once_rb_eq_some l p1 p2 hs
      intro heq
      have hlen := congrArg List.length heq
      simp [List.length_append] at hlen
      omega
  · rw [if_neg hpre] at h ⊢
    exact (Option.some.inj h).symm

/-! ## The claims. -/

/-- C1: every line of the first patch file that begins with
`Subject: [PATCH ` and contains a `]` is rewritten as the part of the line
through and including the first `]`, a single space, the rendered task-tag
label, a space, and the remainder of the line after the first `]`; every
line that does not begin with that marker is copied unchanged. -/
theorem patch_line_rewrite (lt : LabTask) (line : Str) :
    (subjectMarker.isPrefixOf line = true → ']' ∈ line →
      ∃ p1 p2, line = p1 ++ ']' :: p2 ∧ ']' ∉ p1 ∧
        patch_line lt line = some (p1 ++ ']' :: ' ' :: labTaskDisplay lt ++ ' ' :: p2)) ∧
    (subjectMarker.isPrefixOf line = false → patch_line lt line = some line) := by
  constructor
  · intro hpre hmem
    obtain ⟨p1, p2, hs⟩ := split_once_rb_of_mem line hmem
    obtain ⟨heq, hnot⟩ := split_once_rb_eq_some line p1 p2 hs
    refine ⟨p1, p2, heq, hnot, ?_⟩
    rw [patch_line, if_pos hpre, hs]
  · intro hpre
    rw [patch_line, if_neg (by simp [hpre])]

/-- C1 witness: the rewrite theorem applied to the concrete line
`Subject: [PATCH 2/5] Add driver`. -/
theorem patch_line_rewrite_witness :
    ∃ p1 p2, ("Subject: [PATCH 2/5] Add driver".data : Str) = p1 ++ ']' :: p2 ∧ ']' ∉ p1 ∧
      patch_line ⟨3, 2⟩ ("Subject: [PATCH 2/5] Add driver".data) =
        some (p1 ++ ']' :: ' ' :: labTaskDisplay ⟨3, 2⟩ ++ ' ' :: p2) :=
  (patch_line_rewrite ⟨3, 2⟩ ("Subject: [PATCH 2/5] Add driver".data)).1 (by decide) (by decide)

/-- C2 counterexample: on the subject line `Subject: [PATCH 1/3] Fix bug`
with lab 3 / task 2, the rewritten line is NOT
`Subject: [PATCH 1/3] lab3: task2: Fix bug` — the remainder after `]`
keeps its leading space, so the actual output has two spaces after the
label. -/
theorem patch_line_example_not_single_space :
    patch_line ⟨3, 2⟩ ("Subject: [PATCH 1/3] Fix bug".data) ≠
      some ("Subject: [PATCH 1/3] lab3: task2: Fix bug".data) := by decide

/-- C2 amended: on the subject line `Subject: [PATCH 1/3] Fix bug` with
lab 3 / task 2, the rewritten line is
`Subject: [PATCH 1/3] lab3: task2:  Fix bug` (two spaces between the label
and the original description, because the remainder after the first `]`
starts with its own space). -/
theorem patch_line_example :
    patch_line ⟨3, 2⟩ ("Subject: [PATCH 1/3] Fix bug".data) =
      some ("Subject: [PATCH 1/3] lab3: task2:  Fix bug".data) := by decide

/-- C9: a line that begins with `Subject: [PATCH ` but holds no `]`
anywhere makes the Subject Annotator panic (the `unwrap` of
`split_once("]")`, modelled by `AnnotateResult.panicNoBracket`), rather
than fail with an error value or leave the line unmodified. -/
theorem patch_first_mail_panics_without_bracket (lt : LabTask) (files : List PatchFile)
    (i : Nat) (first : PatchFile) (line : Str)
    (hi : findFirstIdx (fun f => isFirstPatchName f.name) files = some i)
    (hf : files[i]? = some first)
    (hmem : line ∈ rustLines first.content)
    (hpre : subjectMarker.isPrefixOf line = true)
    (hno : ']' ∉ line) :
    patch_first_mail files lt = AnnotateResult.panicNoBracket := by
  have hline : patch_line lt line = none := by
    rw [patch_line, if_pos hpre, split_once_rb_eq_none line hno]
  have hm : mapOpt (patch_line lt) (rustLines first.content) = none :=
    mapOpt_eq_none _ _ line hmem hline
  rw [patch_first_mail, hi]
  simp only [hf, patch_content, hm, Option.map_none']

/-- C9 witness: the panic theorem applied to a concrete patch file whose
subject line lacks the closing bracket. -/
theorem patch_first_mail_panics_without_bracket_witness :
    patch_first_mail [⟨("0001-a.patch".data), ("Subject: [PATCH 1/2 broken\nBody\n".data)⟩]
        ⟨3, 2⟩ = AnnotateResult.panicNoBracket :=
  patch_first_mail_panics_without_bracket ⟨3, 2⟩
    [⟨("0001-a.patch".data), ("Subject: [PATCH 1/2 broken\nBody\n".data)⟩] 0
    ⟨("0001-a.patch".data), ("Subject: [PATCH 1/2 broken\nBody\n".data)⟩
    ("Subject: [PATCH 1/2 broken".data) (by decide) (by decide) (by decide) (by decide)
    (by decide)

/-- C3 counterexample: a run of the Subject Annotator over a PatchSet in
which NO line changes — the single patch file has no line starting with
`Subject: [PATCH `, so the rewritten file equals the original and zero
lines change, refuting "exactly one line changes for every run". -/
theorem patch_first_mail_zero_changes :
    patch_first_mail [⟨("0001-a.patch".data), ("hello\nworld\n".data)⟩] ⟨3, 2⟩ =
      AnnotateResult.ok [⟨("0001-a.patch".data), ("hello\nworld\n".data)⟩] := by decide

/-- C3 amended: on a successful run the change is confined to the first
file whose name matches `0001-*.patch`; its rewritten line sequence has the
same length as the original, and position by position exactly the lines
beginning with `Subject: [PATCH ` are changed (each receives the injected
tag) while every other line is copied unchanged; all other patch files of
the set are untouched.  (At most — not exactly — one line changes in
general: zero when no line carries the marker, several when several do.) -/
theorem patch_first_mail_frame (lt : LabTask) (files out : List PatchFile)
    (h : patch_first_mail files lt = AnnotateResult.ok out) :
    ∃ i first newLines,
      findFirstIdx (fun f => isFirstPatchName f.name) files = some i ∧
      files[i]? = some first ∧
      (∀ j : Nat, j ≠ i → out[j]? = files[j]?) ∧
      mapOpt (patch_line lt) (rustLines first.content) = some newLines ∧
      out[i]? = some ⟨first.name, unlines newLines⟩ ∧
      newLines.length = (rustLines first.content).length ∧
      ∀ (k : Nat) (l l' : Str), (rustLines first.content)[k]? = some l →
        newLines[k]? = some l' →
        if subjectMarker.isPrefixOf l then l' ≠ l else l' = l := by
  rw [patch_first_mail] at h
  split at h
  · exact absurd h (by simp)
  rename_i i hi
  split at h
  · exact absurd h (by simp)
  rename_i first hf
  split at h
  · exact absurd h (by simp)
  rename_i nc hc
  simp only [AnnotateResult.ok.injEq] at h
  subst h
  rw [patch_content] at hc
  rcases hm : mapOpt (patch_line lt) (rustLines first.content) with _ | nl <;> rw [hm] at hc
  · simp at hc
  simp only [Option.map_some', Option.some.injEq] at hc
  subst hc
  have hlt : i < files.length := by
    rcases List.getElem?_eq_some.mp hf with ⟨hw, -⟩
    exact hw
  obtain ⟨hlen, hidx⟩ := mapOpt_eq_some _ _ _ hm
  refine ⟨i, first, nl, hi, hf, ?_, hm, ?_, hlen, ?_⟩
  · intro j hj
    exact getElem?_set_ne files i j _ hj
  · exact getElem?_set_self files i _ hlt
  · intro k l l' hl hl'
    obtain ⟨y, hy, hfy⟩ := hidx k l hl
    rw [hy] at hl'
    obtain rfl := Option.some.inj hl'
    exact patch_line_of_some lt l y hfy

/-- C3 witness: the frame theorem applied to a concrete successful run over
the two-file fixture PatchSet (only the first file changes, and in its
content only the subject line). -/
theorem patch_first_mail_frame_witness :
    ∃ i first newLines,
      findFirstIdx (fun f : PatchFile => isFirstPatchName f.name) filesBefore = some i ∧
      filesBefore[i]? = some first ∧
      (∀ j : Nat, j ≠ i → filesAfter[j]? = filesBefore[j]?) ∧
      mapOpt (patch_line ⟨3, 2⟩) (rustLines first.content) = some newLines ∧
      filesAfter[i]? = some ⟨first.name, unlines newLines⟩ ∧
      newLines.length = (rustLines first.content).length ∧
      ∀ (k : Nat) (l l' : Str), (rustLines first.content)[k]? = some l →
        newLines[k]? = some l' →
        if subjectMarker.isPrefixOf l then l' ≠ l else l' = l :=
  patch_first_mail_frame ⟨3, 2⟩ filesBefore filesAfter (by decide)

/-- C4 counterexample: a first patch file with no `Subject: [PATCH ` line
whose content does not end in a newline is NOT left byte-identical — the
line-by-line rewrite appends a terminating newline (`abc` becomes
`abc\n`). -/
theorem patch_first_mail_not_byte_identical :
    patch_first_mail [⟨("0001-x.patch".data), ("abc".data)⟩] ⟨3, 2⟩ =
      AnnotateResult.ok [⟨("0001-x.patch".data), ("abc\n".data)⟩] ∧
    ("abc".data : Str) ≠ ("abc\n".data : Str) := by decide

/-- C4 amended: when no line of the first patch file begins with
`Subject: [PATCH `, every line is copied unchanged, so the rewritten
content is exactly the original lines each terminated by a single `\n`;
whenever the original content already has that normal form (it ends with a
newline and loses nothing to line splitting), the file is byte-identical
after the run and no tag is injected. -/
theorem patch_first_mail_no_marker (lt : LabTask) (files : List PatchFile)
    (i : Nat) (first : PatchFile)
    (hi : findFirstIdx (fun f => isFirstPatchName f.name) files = some i)
    (hf : files[i]? = some first)
    (h : ∀ l ∈ rustLines first.content, subjectMarker.isPrefixOf l = false) :
    patch_content lt first.content = some (unlines (rustLines first.content)) ∧
    (first.content = unlines (rustLines first.content) →
      patch_first_mail files lt = AnnotateResult.ok files) := by
  have hid : ∀ l ∈ rustLines first.content, patch_line lt l = some l := by
    intro l hl
    rw [patch_line, if_neg (by simp [h l hl])]
  have hm : mapOpt (patch_line lt) (rustLines first.content) =
      some (rustLines first.content) := mapOpt_id _ _ hid
  have hc : patch_content lt first.content = some (unlines (rustLines first.content)) := by
    rw [patch_content, hm, Option.map_some']
  refine ⟨hc, fun hnorm => ?_⟩
  rw [patch_first_mail, hi]
  simp only [hf, hc, ← hnorm]
  have heta : (⟨first.name, first.content⟩ : PatchFile) = first := rfl
  rw [heta, set_of_getElem? files i first hf]

/-- C4 witness: the no-marker theorem applied to a concrete patch file
without a subject line; its newline-terminated content survives the run
byte-identically. -/
theorem patch_first_mail_no_marker_witness :
    patch_content ⟨3, 2⟩ ("hello\nworld\n".data) =
      some (unlines (rustLines ("hello\nworld\n".data))) ∧
    (("hello\nworld\n".data : Str) = unlines (rustLines ("hello\nworld\n".data)) →
      patch_first_mail [⟨("0001-y.patch".data), ("hello\nworld\n".data)⟩] ⟨3, 2⟩ =
        AnnotateResult.ok [⟨("0001-y.patch".data), ("hello\nworld\n".data)⟩]) :=
  patch_first_mail_no_marker ⟨3, 2⟩ [⟨("0001-y.patch".data), ("hello\nworld\n".data)⟩] 0
    ⟨("0001-y.patch".data), ("hello\nworld\n".data)⟩ (by decide) (by decide) (by decide)

/-- C5 counterexample: nothing orders the returned PatchSet — the code
returns the `read_dir` enumeration verbatim, so when the enumeration lists
`0002-b.patch` before `0001-a.patch` the result is not in oldest-commit
order. -/
theorem create_patchs_not_sorted :
    create_patchs ("2\n".data)
        [⟨("0002-b.patch".data), []⟩, ⟨("0001-a.patch".data), []⟩] =
      CreateResult.ok [⟨("0002-b.patch".data), []⟩, ⟨("0001-a.patch".data), []⟩] ∧
    ([⟨("0002-b.patch".data), []⟩, ⟨("0001-a.patch".data), []⟩] : List PatchFile) ≠
      [⟨("0001-a.patch".data), []⟩, ⟨("0002-b.patch".data), []⟩] := by decide

/-- C5 amended: when the range-count query reports `N > 0`, the generator
returns exactly the files enumerated from the scratch directory, in
enumeration order; given the version-control collaborator wrote exactly
`N` patch files there (one per commit), the PatchSet has exactly `N`
entries and is non-empty.  Oldest-first ordering holds only when the
directory enumeration happens to list the files in that order — the code
does not sort. -/
theorem create_patchs_count (countOutput : Str) (n : Nat) (entries : List PatchFile)
    (hc : parseUsize (rustTrim countOutput) = some n) (hpos : 0 < n)
    (hlen : entries.length = n) :
    create_patchs countOutput entries = CreateResult.ok entries ∧
    entries.length = n ∧ entries ≠ [] := by
  obtain ⟨m, rfl⟩ := Nat.exists_eq_succ_of_ne_zero (Nat.pos_iff_ne_zero.mp hpos)
  refine ⟨?_, hlen, ?_⟩
  · rw [create_patchs, hc]
  · intro hnil
    rw [hnil] at hlen
    simp at hlen

/-- C5 witness: the count theorem applied to a concrete enumeration of two
patch files for count output `2`. -/
theorem create_patchs_count_witness :
    create_patchs ("2\n".data)
        [⟨("0001-a.patch".data), []⟩, ⟨("0002-b.patch".data), []⟩] =
      CreateResult.ok [⟨("0001-a.patch".data), []⟩, ⟨("0002-b.patch".data), []⟩] ∧
    ([⟨("0001-a.patch".data), []⟩, ⟨("0002-b.patch".data), []⟩] : List PatchFile).length = 2 ∧
    ([⟨("0001-a.patch".data), []⟩, ⟨("0002-b.patch".data), []⟩] : List PatchFile) ≠ [] :=
  create_patchs_count ("2\n".data) 2
    [⟨("0001-a.patch".data), []⟩, ⟨("0002-b.patch".data), []⟩]
    (by decide) (by decide) (by decide)

/-- C6: when the range-count query reports `0`, the run takes the
`nothing to submit` exit — a successful termination modelled by
`RunResult.nothingToSubmit` — and the mail transport (`git send-email`,
modelled by `RunResult.sent`) is never invoked. -/
theorem run_pipeline_zero_noop (lt : LabTask) (countOutput : Str)
    (dirEntries : List PatchFile)
    (h : parseUsize (rustTrim countOutput) = some 0) :
    run_pipeline lt countOutput dirEntries = RunResult.nothingToSubmit ∧
    ∀ files : List PatchFile, run_pipeline lt countOutput dirEntries ≠ RunResult.sent files := by
  have hcp : create_patchs countOutput dirEntries = CreateResult.nothingToSubmit := by
    rw [create_patchs, h]
  have hr : run_pipeline lt countOutput dirEntries = RunResult.nothingToSubmit := by
    rw [run_pipeline, hcp]
  exact ⟨hr, fun files hsent => by rw [hr] at hsent; cases hsent⟩

/-- C6 witness: the zero-count theorem applied to the concrete count
output `0`. -/
theorem run_pipeline_zero_noop_witness :
    run_pipeline ⟨3, 2⟩ ("0\n".data) [] = RunResult.nothingToSubmit ∧
    ∀ files : List PatchFile, run_pipeline ⟨3, 2⟩ ("0\n".data) [] ≠ RunResult.sent files :=
  run_pipeline_zero_noop ⟨3, 2⟩ ("0\n".data) [] (by decide)

/-- C7: when no file of the PatchSet matches the first-patch naming
convention `0001-*.patch`, the run fails with the `FirstPatchNotFound`
error carrying the full list of patch file names, and the mail transport
is never invoked. -/
theorem run_pipeline_first_patch_not_found (lt : LabTask) (countOutput : Str)
    (dirEntries : List PatchFile) (n : Nat)
    (hc : parseUsize (rustTrim countOutput) = some n) (hpos : 0 < n)
    (h : ∀ f ∈ dirEntries, isFirstPatchName f.name = false) :
    run_pipeline lt countOutput dirEntries =
      RunResult.annotateError
        (AnnotateResult.firstPatchNotFound (dirEntries.map (fun f => f.name))) ∧
    ∀ files : List PatchFile, run_pipeline lt countOutput dirEntries ≠ RunResult.sent files := by
  obtain ⟨m, rfl⟩ := Nat.exists_eq_succ_of_ne_zero (Nat.pos_iff_ne_zero.mp hpos)
  have hcp : create_patchs countOutput dirEntries = CreateResult.ok dirEntries := by
    rw [create_patchs, hc]
  have hfind : findFirstIdx (fun f : PatchFile => isFirstPatchName f.name) dirEntries = none :=
    findFirstIdx_eq_none _ _ h
  have hpm : patch_first_mail dirEntries lt =
      AnnotateResult.firstPatchNotFound (dirEntries.map (fun f => f.name)) := by
    rw [patch_first_mail, hfind]
  have hr : run_pipeline lt countOutput dirEntries =
      RunResult.annotateError
        (AnnotateResult.firstPatchNotFound (dirEntries.map (fun f => f.name))) := by
    rw [run_pipeline, hcp]
    change (match patch_first_mail dirEntries lt with
      | AnnotateResult.ok annotated => RunResult.sent annotated
      | e => RunResult.annotateError e) = _
    rw [hpm]
  exact ⟨hr, fun files hsent => by rw [hr] at hsent; cases hsent⟩

/-- C7 witness: the not-found theorem applied to a PatchSet whose only
file is named `0002-b.patch`. -/
theorem run_pipeline_first_patch_not_found_witness :
    run_pipeline ⟨3, 2⟩ ("1\n".data) [⟨("0002-b.patch".data), ("x\n".data)⟩] =
      RunResult.annotateError
        (AnnotateResult.firstPatchNotFound [("0002-b.patch".data)]) ∧
    ∀ files : List PatchFile,
      run_pipeline ⟨3, 2⟩ ("1\n".data) [⟨("0002-b.patch".data), ("x\n".data)⟩] ≠
        RunResult.sent files :=
  run_pipeline_first_patch_not_found ⟨3, 2⟩ ("1\n".data)
    [⟨("0002-b.patch".data), ("x\n".data)⟩] 1 (by decide) (by decide) (by decide)

/-- C10: when the persisted configuration file exists but fails to parse,
`load_config` fails with a configuration error and returns before the
re-persist step, so the file on disk is left exactly as it was. -/
theorem load_config_parse_error (content : Str) (h : toml_parse content = none) :
    load_config (some content) = (LoadResult.parseError, some content) := by
  rw [load_config, h]

/-- C10 witness: the parse-error theorem applied to a concrete
unparseable file. -/
theorem load_config_parse_error_witness :
    load_config (some ("junk".data)) = (LoadResult.parseError, some ("junk".data)) :=
  load_config_parse_error ("junk".data) (by decide)

/-- Parsing a serialized integer field recovers the value when it fits the
32-bit bound of the Rust `u32` fields. -/
theorem parseNatField_natToStr (n : Nat) (h : n < 2 ^ 32) :
    parseNatField (natToStr n) = some n := by
  simp only [parseNatField, parseNatDigits_natToStr]
  rw [if_pos h]

/-- Parsing a serialized quoted-string field recovers the value. -/
theorem parseStrField_escape (s : Str) :
    parseStrField (escapeStr s ++ ['"']) = some s := by
  rw [parseStrField, if_pos (List.getLast?_concat _), List.dropLast_concat, unescape_escape]

/-- Parsing a serialized boolean field recovers the value. -/
theorem parseBoolField_boolStr (b : Bool) : parseBoolField (boolStr b) = some b := by
  cases b <;> decide

/-- C8: serializing a valid configuration (its `u32` fields within the
32-bit bound) to the persisted text format and parsing that text back
yields the identical configuration; consequently `load_config` on a file
just written by `write_config` succeeds with the same configuration and
re-persists the very same bytes. -/
theorem config_round_trip (c : Config) (h1 : c.test.lab < 2 ^ 32)
    (h2 : c.test.task < 2 ^ 32) :
    toml_parse (toml_serialize c) = some c ∧
    load_config (some (write_config c)) = (LoadResult.ok c, some (write_config c)) := by
  obtain ⟨⟨lab, task⟩, ⟨toAddr, cc⟩, ⟨rc⟩⟩ := c
  simp only at h1 h2
  have hnl : ∀ l ∈ [
      ("[test]".data),
      ("lab = ".data) ++ natToStr lab,
      ("task = ".data) ++ natToStr task,
      ([] : Str),
      ("[mail]".data),
      ("to = \"".data) ++ (escapeStr toAddr ++ ['"']),
      ("suppress_cc = ".data) ++ boolStr cc,
      ([] : Str),
      ("[git]".data),
      ("root_commit = \"".data) ++ (escapeStr rc ++ ['"'])], '\n' ∉ l := by
    intro l hl
    simp only [List.mem_cons, List.not_mem_nil, or_false] at hl
    rcases hl with rfl | rfl | rfl | rfl | rfl | rfl | rfl | rfl | rfl | rfl
    · decide
    · intro hm
      rcases List.mem_append.mp hm with hm | hm
      · exact absurd hm (by decide)
      · exact natToStr_no_newline lab hm
    · intro hm
      rcases List.mem_append.mp hm with hm | hm
      · exact absurd hm (by decide)
      · exact natToStr_no_newline task hm
    · simp
    · decide
    · intro hm
      rcases List.mem_append.mp hm with hm | hm
      · exact absurd hm (by decide)
      · rcases List.mem_append.mp hm with hm | hm
        · exact escapeStr_no_newline toAddr hm
        · exact absurd hm (by decide)
    · intro hm
      rcases List.mem_append.mp hm with hm | hm
      · exact absurd hm (by decide)
      · cases cc <;> exact absurd hm (by decide)
    · simp
    · decide
    · intro hm
      rcases List.mem_append.mp hm with hm | hm
      · exact absurd hm (by decide)
      · rcases List.mem_append.mp hm with hm | hm
        · exact escapeStr_no_newline rc hm
        · exact absurd hm (by decide)
  have hs : splitChar '\n' (unlines [
      ("[test]".data),
      ("lab = ".data) ++ natToStr lab,
      ("task = ".data) ++ natToStr task,
      ([] : Str),
      ("[mail]".data),
      ("to = \"".data) ++ (escapeStr toAddr ++ ['"']),
      ("suppress_cc = ".data) ++ boolStr cc,
      ([] : Str),
      ("[git]".data),
      ("root_commit = \"".data) ++ (escapeStr rc ++ ['"'])]) = [
      ("[test]".data),
      ("lab = ".data) ++ natToStr lab,
      ("task = ".data) ++ natToStr task,
      ([] : Str),
      ("[mail]".data),
      ("to = \"".data) ++ (escapeStr toAddr ++ ['"']),
      ("suppress_cc = ".data) ++ boolStr cc,
      ([] : Str),
      ("[git]".data),
      ("root_commit = \"".data) ++ (escapeStr rc ++ ['"']),
      ([] : Str)] := by
    rw [splitChar_unlines _ hnl]
    rfl
  have hrt : toml_parse (toml_serialize ⟨⟨lab, task⟩, ⟨toAddr, cc⟩, ⟨rc⟩⟩) =
      some ⟨⟨lab, task⟩, ⟨toAddr, cc⟩, ⟨rc⟩⟩ := by
    rw [toml_parse, toml_serialize, hs]
    simp only [toml_parse_lines, eq_self_iff_true, and_self, if_true,
      dropLiteral_append, parseNatField_natToStr lab h1,
      parseNatField_natToStr task h2, parseStrField_escape, parseBoolField_boolStr]
  refine ⟨hrt, ?_⟩
  simp only [load_config, write_config, hrt]

/-- C8 witness: the round-trip theorem applied to the default
configuration. -/
theorem config_round_trip_witness :
    toml_parse (toml_serialize Config.default) = some Config.default ∧
    load_config (some (write_config Config.default)) =
      (LoadResult.ok Config.default, some (write_config Config.default)) :=
  config_round_trip Config.default (by decide) (by decide)
